import Mathlib

/-!
# Verification of the ui-actions version-change detection and publish decision engine

Shallow embedding of the `version-metadata` and `publish` GitHub actions
(repository `Quantco/ui-actions`).  JavaScript strings are modelled as
`List Char` (wrapped in `String` at API boundaries), JavaScript numbers
obtained from `parseInt` as `JsNum` (a natural number or `NaN`), and
fallible code as `Except String`.
-/

namespace UIActions
/-- A JavaScript number as produced by `parseInt`: either an actual
(non-negative, in our use) integer or `NaN`. -/
inductive JsNum where
  | nan : JsNum
  | num : Nat → JsNum
  deriving DecidableEq, Repr

/-- JavaScript `x + 1` on a `parseInt` result: `NaN + 1 = NaN`. -/
def JsNum.add1 : JsNum → JsNum
  | .nan => .nan
  | .num n => .num (n + 1)

/-- JavaScript strict inequality `a !== b` on numbers: `NaN !== x` and
`x !== NaN` are `true`, including `NaN !== NaN`. -/
def JsNum.jsNe : JsNum → JsNum → Bool
  | .num x, .num y => x != y
  | _, _ => true

/-- The decimal digit character for `n < 10` (JavaScript number rendering). -/
def natDigitChar (n : Nat) : Char := Char.ofNat (48 + n)

/-- Numeric value of a decimal digit character. -/
def digitVal (c : Char) : Nat := c.toNat - 48

/-- Value of a big-endian list of decimal digit characters. -/
def digitsToNat (l : List Char) : Nat :=
  l.foldl (fun acc c => 10 * acc + digitVal c) 0

/-- Fuelled decimal rendering of a natural number (big-endian digit list). -/
def renderNatAux : Nat → Nat → List Char
  | 0, _ => []
  | fuel + 1, n =>
    if n < 10 then [natDigitChar n]
    else renderNatAux fuel (n / 10) ++ [natDigitChar (n % 10)]

/-- Decimal rendering of a natural number, as JavaScript template literals
render non-negative integers (`${n}`). -/
def renderNat (n : Nat) : List Char := renderNatAux (n + 1) n

/-- Model of JavaScript `parseInt` restricted to the inputs occurring here:
take the leading run of decimal digits; if it is empty the result is `NaN`.
(Signs, whitespace and radix prefixes never occur in this code base.) -/
def jsParseInt (s : List Char) : JsNum :=
  let ds := s.takeWhile Char.isDigit
  if ds.isEmpty then .nan else .num (digitsToNat ds)

/-- Model of JavaScript `String.prototype.split` with a single-character
separator: splits on every occurrence, keeping empty segments. -/
def splitOnChar (sep : Char) : List Char → List (List Char)
  | [] => [[]]
  | x :: xs =>
    if x = sep then [] :: splitOnChar sep xs
    else
      match splitOnChar sep xs with
      | [] => [[x]]
      | h :: t => (x :: h) :: t

/-- Rendering of `NaN` by JavaScript template literals. -/
def JsNum.render : JsNum → List Char
  | .nan => ['N', 'a', 'N']
  | .num n => renderNat n

/- ### Semver-subset version strings -/

/-- The patch segment of a rendered semver-subset version:
`patch` or `patch-preRelease`. -/
def renderPatchPart (c : Nat) (p : Option Nat) : List Char :=
  renderNat c ++ (match p with | none => [] | some q => '-' :: renderNat q)

/-- Character data of a rendered semver-subset version
`major.minor.patch[-preRelease]`. -/
def renderVersionData (a b c : Nat) (p : Option Nat) : List Char :=
  renderNat a ++ ('.' :: (renderNat b ++ ('.' :: renderPatchPart c p)))

/-- A semver-subset version string `major.minor.patch[-preRelease]`
(the grammar `^\d+\.\d+\.\d+(-\d+)?$` from the data model). -/
def renderVersion (a b c : Nat) (p : Option Nat) : String :=
  ⟨renderVersionData a b c p⟩

/- ### The increment algorithm (`publish/src/utils.ts`) -/

/-- A parsed version as in `publish/src/utils.ts`
(`[major, minor, patch, preRelease?]`); the first three components are
`parseInt` results, the pre-release is absent or a `parseInt` result. -/
def ParsedVersion := JsNum × JsNum × JsNum × Option JsNum

/-- `incrementPreRelease` (`publish/src/utils.ts`): if pre-release is
already present increment it; if not, increment patch and add
pre-release `-0`. -/
def incrementPreRelease : ParsedVersion → List Char
  | (major, minor, patch, none) =>
    major.render ++ ('.' :: (minor.render ++ ('.' :: (patch.add1.render ++ ('-' :: renderNat 0)))))
  | (major, minor, patch, some p) =>
    major.render ++ ('.' :: (minor.render ++ ('.' :: (patch.render ++ ('-' :: p.add1.render)))))

/-- `incrementPatch`: increment patch, drop the pre-release. -/
def incrementPatch : ParsedVersion → List Char
  | (major, minor, patch, _) =>
    major.render ++ ('.' :: (minor.render ++ ('.' :: patch.add1.render)))

/-- `incrementMinor`: increment minor, reset patch, drop the pre-release. -/
def incrementMinor : ParsedVersion → List Char
  | (major, minor, _, _) =>
    major.render ++ ('.' :: (minor.add1.render ++ ('.' :: renderNat 0)))

/-- `incrementMajor`: increment major, reset minor and patch, drop the
pre-release. -/
def incrementMajor : ParsedVersion → List Char
  | (major, _, _, _) =>
    major.add1.render ++ ('.' :: (renderNat 0 ++ ('.' :: renderNat 0)))

/-- `incrementVersion` (`publish/src/utils.ts`): split on `.`, parse the
components, split the patch component on `-` when a pre-release suffix is
present, reject a non-numeric pre-release, then dispatch on the increment
type; an unrecognized type is a hard error.  The increment type is kept as
a string, as it is at the JavaScript runtime level. -/
def incrementVersion (version : String) (type : String) : Except String String :=
  match splitOnChar '.' version.data with
  | majorS :: minorS :: maybePatch :: _ =>
    let major := jsParseInt majorS
    let minor := jsParseInt minorS
    let (patch, preRelease) :=
      if '-' ∈ maybePatch then
        -- `includes('-')` guarantees the split has at least two parts,
        -- so the defaults are unreachable
        ((jsParseInt ((splitOnChar '-' maybePatch).headD [])),
          some (jsParseInt ((splitOnChar '-' maybePatch).getD 1 [])))
      else (jsParseInt maybePatch, none)
    if preRelease = some JsNum.nan then
      .error ("Could not increment version " ++ version ++ ", pre release should be a number")
    else
      match type with
      | "pre-release" => .ok ⟨incrementPreRelease (major, minor, patch, preRelease)⟩
      | "patch" => .ok ⟨incrementPatch (major, minor, patch, preRelease)⟩
      | "minor" => .ok ⟨incrementMinor (major, minor, patch, preRelease)⟩
      | "major" => .ok ⟨incrementMajor (major, minor, patch, preRelease)⟩
      | _ => .error ("Unknown increment type \"" ++ type ++ "\"")
  | _ =>
    -- fewer than three `.`-separated components: `maybePatch` is
    -- `undefined` and `maybePatch.includes` raises a `TypeError`
    .error "TypeError: Cannot read properties of undefined"

/- ### Data model of the version-metadata action (`version-metadata/src/utils.ts`) -/

/-- `VersionDiffType` plus the internal `equal` sentinel returned by
`getSemverDiffType`. -/
inductive SemverDiffType where
  | major
  | minor
  | patch
  | preRelease
  | equal
  deriving DecidableEq, Repr

/-- One detected transition between two consecutive distinct version
strings (`VersionChange` in `version-metadata/src/utils.ts`). -/
structure VersionChange where
  oldVersion : String
  newVersion : String
  type : SemverDiffType
  commit : String
  deriving DecidableEq, Repr

/-- Changed files categorized by status (`CategorizedChangedFiles`). -/
structure CategorizedChangedFiles where
  all : List String
  added : List String
  modified : List String
  removed : List String
  renamed : List String
  deriving DecidableEq, Repr

/-- The tagged union `VersionMetadataResponse`, modelled as one record:
`type` and `commitResponsible` are `none` exactly when the JavaScript
object omits them (the `changed: false` variant). -/
structure VersionMetadataResponse where
  changed : Bool
  oldVersion : String
  newVersion : String
  commitBase : String
  commitHead : String
  changedFiles : CategorizedChangedFiles
  changes : List VersionChange
  type : Option SemverDiffType := none
  commitResponsible : Option String := none
  deriving DecidableEq, Repr

/-- Result of `parseSemverVersion`: `parseInt`ed numeric components and the
pre-release suffix kept as a string (as in the source). -/
structure ParsedSemver where
  major : JsNum
  minor : JsNum
  patch : JsNum
  preRelease : Option (List Char)
  deriving DecidableEq, Repr

/-- `parseSemverVersion` (`version-metadata/src/utils.ts`): split on `.`,
split the patch component on `-` when present; the numeric components go
through `parseInt`, the pre-release suffix stays a string.  With fewer than
three `.`-separated components the JavaScript code dereferences `undefined`
(a `TypeError`), modelled as an error. -/
def parseSemverVersion (version : String) : Except String ParsedSemver :=
  match splitOnChar '.' version.data with
  | major :: minor :: maybePatch :: _ =>
    let (patch, preRelease) :=
      if '-' ∈ maybePatch then
        -- `includes('-')` guarantees at least two parts, the defaults are unreachable
        ((splitOnChar '-' maybePatch).headD [], some ((splitOnChar '-' maybePatch).getD 1 []))
      else (maybePatch, none)
    .ok ⟨jsParseInt major, jsParseInt minor, jsParseInt patch, preRelease⟩
  | _ => .error "TypeError: Cannot read properties of undefined"

/-- `getSemverDiffType` (`version-metadata/src/utils.ts`): compare the
parsed components in priority order, first difference wins; `equal` when
the version strings coincide; an internal-consistency error when all
components agree but the strings differ. -/
def getSemverDiffType (versionA versionB : String) : Except String SemverDiffType :=
  match parseSemverVersion versionA, parseSemverVersion versionB with
  | .ok pa, .ok pb =>
    if pa.major.jsNe pb.major then .ok .major
    else if pa.minor.jsNe pb.minor then .ok .minor
    else if pa.patch.jsNe pb.patch then .ok .patch
    else if pa.preRelease ≠ pb.preRelease then .ok .preRelease
    else if versionA = versionB then .ok .equal
    else
      .error ("Could not determine the type of change between '" ++ versionA ++ "' and '"
        ++ versionB ++ "', this should not happen")
  | .error e, _ => .error e
  | _, .error e => .error e

/-- `computeResponseFromChanges` (`version-metadata/src/utils.ts`): empty
change list or a newest version that collapses back onto `oldVersion`
(non-linear history) yield the `changed: false` variant with `changes: []`;
otherwise the `changed: true` variant tagged with the diff type and the
last change's commit. -/
def computeResponseFromChanges (changes : List VersionChange)
    (changedFiles : CategorizedChangedFiles) (oldVersion : String)
    (base : String) (head : String) : Except String VersionMetadataResponse :=
  match changes.getLast? with
  | none =>
    .ok { changed := false, oldVersion := oldVersion, newVersion := oldVersion,
          changes := [], changedFiles := changedFiles,
          commitBase := base, commitHead := head }
  | some lastChange =>
    let newVersion := lastChange.newVersion
    -- this might happen with a non-linear git history, treated as if there
    -- are no version changes
    if newVersion = oldVersion then
      .ok { changed := false, oldVersion := oldVersion, newVersion := newVersion,
            changes := [], changedFiles := changedFiles,
            commitBase := base, commitHead := head }
    else
      match getSemverDiffType oldVersion newVersion with
      | .error e => .error e
      | .ok t =>
        .ok { changed := true, oldVersion := oldVersion, newVersion := newVersion,
              type := some t, commitResponsible := some lastChange.commit,
              commitBase := base, commitHead := head,
              changes := changes, changedFiles := changedFiles }

/- ### The publish decision engine (`publish/src/index.ts`) -/

/-- The decision triple of the publish action, without the human-readable
`reason` summary (presentation-only Markdown, not decision logic):
`version` is present exactly when the source emits a `version` output. -/
structure PublishResult where
  publish : Bool
  version : Option String
  deriving DecidableEq, Repr

/-- `run` (`publish/src/index.ts`): glob matching by `multimatch` is
modelled by an abstract per-file/per-pattern matcher `matchesGlob`.
`detectedNonLinearHistory` is true when the reconstructed `newVersion`
equals the latest registry version; the decision follows the source's
`if / else if / else` chain, and a failing `incrementVersion` call
propagates as the error that `setFailed` reports. -/
def publishRun (matchesGlob : String → String → Bool)
    (relevantFilesGlobs : List String)
    (versionMetadata : VersionMetadataResponse)
    (latestRegistryVersion : String)
    (incrementType : String) : Except String PublishResult :=
  let relevantFiles := versionMetadata.changedFiles.all.filter
    (fun file => relevantFilesGlobs.any (fun glob => matchesGlob file glob))
  let detectedNonLinearHistory : Bool :=
    versionMetadata.newVersion == latestRegistryVersion
  if versionMetadata.changed && !detectedNonLinearHistory then
    .ok { publish := true, version := some versionMetadata.newVersion }
  else if decide (relevantFiles.length > 0) || detectedNonLinearHistory then
    match incrementVersion latestRegistryVersion incrementType with
    | .error e => .error e
    | .ok incrementedVersion => .ok { publish := true, version := some incrementedVersion }
  else
    .ok { publish := false, version := none }

/- ### Consecutive deduplication (`version-metadata/src/utils.ts`) -/

/-- Accumulator of the `deduplicateConsecutive` reducer:
`{ list: T[], last: E | undefined }`. -/
structure DedupAcc (T E : Type) where
  list : List T
  last : Option E
  deriving DecidableEq, Repr

/-- The curried reducer `deduplicateConsecutive` from
`version-metadata/src/utils.ts`.  The JavaScript truthiness test
`if (!value) return acc` is modelled by the element type's falsiness
predicate `isFalsy` (JavaScript `ToBoolean`: `undefined`, `''` and `0` are
falsy for the types this reducer is used at); `acc.last === value` is
strict equality, and `undefined === value` is false for a truthy `value`,
which the `Option` equality reproduces. -/
def deduplicateConsecutive {T E : Type} [DecidableEq E]
    (accessor : T → E) (isFalsy : E → Bool)
    (acc : DedupAcc T E) (curr : T) : DedupAcc T E :=
  let value := accessor curr
  if isFalsy value then acc
  else if acc.last = some value then acc
  else { list := acc.list ++ [curr], last := some value }

/-- `arr.reduce(deduplicateConsecutive(accessor), { list: [], last: undefined }).list`. -/
def deduplicateConsecutiveList {T E : Type} [DecidableEq E]
    (accessor : T → E) (isFalsy : E → Bool) (l : List T) : List T :=
  (l.foldl (deduplicateConsecutive accessor isFalsy) ⟨[], none⟩).list

/-- Recursive restatement of the dedup fold, used to reason about it. -/
def dedupSpec {T E : Type} [DecidableEq E]
    (accessor : T → E) (isFalsy : E → Bool) : Option E → List T → List T
  | _, [] => []
  | last, x :: xs =>
    let value := accessor x
    if isFalsy value then dedupSpec accessor isFalsy last xs
    else if last = some value then dedupSpec accessor isFalsy last xs
    else x :: dedupSpec accessor isFalsy (some value) xs

/- ### Commit filtering with merge re-inclusion (`version-metadata/src/index.ts`) -/

/-- A provider-supplied commit: SHA, parent SHAs in order, message. -/
structure Commit where
  sha : String
  parents : List String
  message : String
  deriving DecidableEq, Repr

/-- An entry of the filtered (examined) commit sequence: either a real
commit or the synthesized artificial parent commit pushed before a root
commit, whose `sha` is `null`. -/
inductive ExaminedCommit where
  | artificialParent (forSha : String)
  | real (c : Commit)
  deriving DecidableEq, Repr

/-- The `sha` field of an examined entry (`null` for the sentinel). -/
def ExaminedCommit.shaOf : ExaminedCommit → Option String
  | .artificialParent _ => none
  | .real c => some c.sha

/-- The commit-filtering loop of `run`: a root commit is kept preceded by
an artificial parent entry; a commit with one parent, or whose SHA starts
with `base`, is kept; a merge commit is kept when its first parent is the
SHA of the last kept entry.  Reading the last kept entry of an empty output
is the JavaScript `TypeError` on `commits[commits.length - 1].sha`,
modelled as an error. -/
def filterCommitsAux (base : String) (kept : List ExaminedCommit) :
    List Commit → Except String (List ExaminedCommit)
  | [] => .ok kept
  | commit :: rest =>
    if commit.parents.length = 0 then
      filterCommitsAux base (kept ++ [.artificialParent commit.sha, .real commit]) rest
    else if commit.parents.length = 1 || base.data.isPrefixOf commit.sha.data then
      filterCommitsAux base (kept ++ [.real commit]) rest
    else
      match kept.getLast? with
      | none => .error "TypeError: Cannot read properties of undefined (reading sha)"
      | some lastKept =>
        if lastKept.shaOf = commit.parents.head? then
          filterCommitsAux base (kept ++ [.real commit]) rest
        else
          filterCommitsAux base kept rest

/-- The commit-filtering scan over the provider-ordered commit sequence. -/
def filterCommits (base : String) (unfilteredCommits : List Commit) :
    Except String (List ExaminedCommit) :=
  filterCommitsAux base [] unfilteredCommits

/-- Modelled from the claim's wording (specification-side function for the
refinement proof): identical keep rules, except that a merge commit with no
immediately preceding kept commit is dropped rather than being a crash. -/
def filterCommitsClaimAux (base : String) (kept : List ExaminedCommit) :
    List Commit → List ExaminedCommit
  | [] => kept
  | commit :: rest =>
    if commit.parents.length = 0 then
      filterCommitsClaimAux base (kept ++ [.artificialParent commit.sha, .real commit]) rest
    else if commit.parents.length = 1 || base.data.isPrefixOf commit.sha.data then
      filterCommitsClaimAux base (kept ++ [.real commit]) rest
    else
      match kept.getLast? with
      | none => filterCommitsClaimAux base kept rest
      | some lastKept =>
        if lastKept.shaOf = commit.parents.head? then
          filterCommitsClaimAux base (kept ++ [.real commit]) rest
        else
          filterCommitsClaimAux base kept rest

/-- Specification-side filtering (see `filterCommitsClaimAux`). -/
def filterCommitsClaim (base : String) (unfilteredCommits : List Commit) :
    List ExaminedCommit :=
  filterCommitsClaimAux base [] unfilteredCommits

/- ### Per-commit content fetch, fallback and version extraction
(`version-metadata/src/index.ts` and `version-metadata/src/utils.ts`) -/

/-- Historical file contents, modelled by the outcome of `JSON.parse`
(a JavaScript builtin): either JSON-parseable content carrying its
`version` field (absent modelled as `none`), or content `JSON.parse`
rejects. -/
inductive FileContents where
  | jsonObj (version : Option String)
  | notJson
  deriving DecidableEq, Repr

/-- The synthetic fallback payload
`{ "version": "0.0.0", "fallback_for_commit": "<sha>" }`: valid JSON whose
`version` field is `"0.0.0"`. -/
def dummyContent : FileContents := .jsonObj (some "0.0.0")

/-- `parseVersionFromFileContentsJSON` (`version-metadata/src/utils.ts`):
JSON-parse the content, fail on unparseable content, fail on a missing or
falsy (empty) `version` field  (the `sha`/`gitUrl` arguments of the source
only feed the error-message text). -/
def parseVersionFromFileContentsJSON (fileContent : FileContents) : Except String String :=
  match fileContent with
  | .notJson => .error "Failed to parse JSON of package.json file"
  | .jsonObj none => .error "version is undefined, this should not happen"
  | .jsonObj (some version) =>
    if version = "" then .error "version is undefined, this should not happen"
    else .ok version

/-- The pluggable extraction strategy: plain JSON, or a user-supplied
regex / external command, the latter two modelled as abstract evaluators on
the raw contents (they run the `RegExp` engine or spawn a process). -/
inductive ExtractionMethod where
  | json
  | regex (extract : FileContents → Except String String)
  | command (extract : FileContents → Except String String)

/-- `parseVersionFromFileContents`: dispatch on the extraction strategy. -/
def parseVersionFromFileContents (fileContent : FileContents)
    (extraction : ExtractionMethod) : Except String String :=
  match extraction with
  | .json => parseVersionFromFileContentsJSON fileContent
  | .regex extract => extract fileContent
  | .command extract => extract fileContent

/-- One element of `maybeAllIterationsOfPackageJson` after the fetch stage:
the commit SHA (`null` for the sentinel), the contents to parse, and
whether the `0.0.0` fallback was substituted. -/
structure PackageJsonIteration where
  sha : Option String
  content : FileContents
  isFallback : Bool
  deriving DecidableEq, Repr

/-- The fetch stage of `run` for one kept commit, with the collaborator's
`getContent` modelled as `fetch`: the sentinel never fetches and takes the
dummy payload; a fetch failure logs a warning and substitutes the dummy
payload with `isFallback: true`; a successful fetch is passed through. -/
def fetchPackageJson (fetch : String → Except String FileContents)
    (commit : ExaminedCommit) : PackageJsonIteration :=
  match commit.shaOf with
  | none => { sha := none, content := dummyContent, isFallback := true }
  | some sha =>
    match fetch sha with
    | .ok content => { sha := some sha, content := content, isFallback := false }
    | .error _ => { sha := some sha, content := dummyContent, isFallback := true }

/-- A parsed `{ version, sha, isFallback }` entry. -/
structure VersionEntry where
  version : String
  sha : Option String
  isFallback : Bool
  deriving DecidableEq, Repr

/-- The parse stage of `run` for one iteration: fallbacks are parsed as
plain JSON (`isFallback ? { type: 'json' } : extractionMethod`), everything
else with the configured extraction method; an extraction failure is thrown
and aborts the run. -/
def parseIteration (extractionMethod : ExtractionMethod)
    (it : PackageJsonIteration) : Except String VersionEntry :=
  match parseVersionFromFileContents it.content
      (if it.isFallback then .json else extractionMethod) with
  | .error e => .error e
  | .ok version => .ok { version := version, sha := it.sha, isFallback := it.isFallback }

/- ### Concrete example values used by witnesses -/

/-- A categorization with no changed files. -/
def emptyChangedFiles : CategorizedChangedFiles := ⟨[], [], [], [], []⟩

/-- A `changed: true` metadata result whose reconstruction landed on
`1.0.1`. -/
def mdChangedExample : VersionMetadataResponse :=
  { changed := true, oldVersion := "1.0.0", newVersion := "1.0.1",
    commitBase := "b", commitHead := "h", changedFiles := emptyChangedFiles,
    changes := [⟨"1.0.0", "1.0.1", .patch, "c1"⟩],
    type := some .patch, commitResponsible := some "c1" }

/-- The result of a `pre-release` increment on a rendered version:
bump patch and start at `-0` without a suffix, bump the suffix with one. -/
def preReleaseBump (a b c : Nat) (p : Option Nat) : String :=
  match p with
  | none => renderVersion a b (c + 1) (some 0)
  | some q => renderVersion a b c (some (q + 1))

/- ### Basic lemmas about the string/number model -/

theorem natDigitChar_toNat {n : Nat} (h : n < 10) : (natDigitChar n).toNat = 48 + n := by
  interval_cases n <;> decide

theorem digitVal_natDigitChar {n : Nat} (h : n < 10) : digitVal (natDigitChar n) = n := by
  simp [digitVal, natDigitChar_toNat h]

theorem natDigitChar_isDigit {n : Nat} (h : n < 10) : (natDigitChar n).isDigit = true := by
  interval_cases n <;> decide

theorem digitsToNat_append_singleton (xs : List Char) (c : Char) :
    digitsToNat (xs ++ [c]) = 10 * digitsToNat xs + digitVal c := by
  simp [digitsToNat, List.foldl_append]

theorem renderNatAux_spec : ∀ (fuel n : Nat), n < fuel →
    digitsToNat (renderNatAux fuel n) = n ∧
    renderNatAux fuel n ≠ [] ∧
    ∀ c ∈ renderNatAux fuel n, c.isDigit = true := by
  intro fuel
  induction fuel with
  | zero => intro n h; omega
  | succ fuel ih =>
    intro n h
    by_cases hn : n < 10
    · refine ⟨?_, by simp [renderNatAux, hn], ?_⟩
      · simp [renderNatAux, hn, digitsToNat, digitVal_natDigitChar hn]
      · intro c hc
        simp [renderNatAux, hn] at hc
        subst hc
        exact natDigitChar_isDigit hn
    · have hdiv : n / 10 < fuel := by
        have h1 : n / 10 < n := Nat.div_lt_self (by omega) (by omega)
        omega
      obtain ⟨ihv, ihne, ihdig⟩ := ih (n / 10) hdiv
      have hmod : n % 10 < 10 := Nat.mod_lt _ (by omega)
      refine ⟨?_, by simp [renderNatAux, hn], ?_⟩
      · rw [renderNatAux]
        simp only [hn, if_false]
        rw [digitsToNat_append_singleton, ihv, digitVal_natDigitChar hmod]
        omega
      · intro c hc
        rw [renderNatAux] at hc
        simp only [hn, if_false, List.mem_append, List.mem_singleton] at hc
        rcases hc with hc | hc
        · exact ihdig c hc
        · subst hc; exact natDigitChar_isDigit hmod

theorem digitsToNat_renderNat (n : Nat) : digitsToNat (renderNat n) = n :=
  (renderNatAux_spec (n + 1) n (Nat.lt_succ_self n)).1

theorem renderNat_ne_nil (n : Nat) : renderNat n ≠ [] :=
  (renderNatAux_spec (n + 1) n (Nat.lt_succ_self n)).2.1

theorem renderNat_isDigit {n : Nat} {c : Char} (hc : c ∈ renderNat n) : c.isDigit = true :=
  (renderNatAux_spec (n + 1) n (Nat.lt_succ_self n)).2.2 c hc

theorem renderNat_injective {m n : Nat} (h : renderNat m = renderNat n) : m = n := by
  have := digitsToNat_renderNat m
  rw [h, digitsToNat_renderNat] at this
  omega

theorem dot_not_mem_renderNat {n : Nat} : '.' ∉ renderNat n := by
  intro h
  have := renderNat_isDigit h
  simp [Char.isDigit] at this

theorem dash_not_mem_renderNat {n : Nat} : '-' ∉ renderNat n := by
  intro h
  have := renderNat_isDigit h
  simp [Char.isDigit] at this

theorem jsParseInt_renderNat (n : Nat) : jsParseInt (renderNat n) = .num n := by
  have hall : (renderNat n).takeWhile Char.isDigit = renderNat n := by
    rw [List.takeWhile_eq_self_iff]
    intro c hc
    exact renderNat_isDigit hc
  simp [jsParseInt, hall, List.isEmpty_iff, renderNat_ne_nil n, digitsToNat_renderNat n]

theorem splitOnChar_ne_nil (sep : Char) (l : List Char) : splitOnChar sep l ≠ [] := by
  induction l with
  | nil => simp [splitOnChar]
  | cons x xs ih =>
    by_cases hx : x = sep
    · simp [splitOnChar, hx]
    · rw [splitOnChar]
      simp only [hx, if_false]
      rcases hsp : splitOnChar sep xs with _ | ⟨h, t⟩
      · exact absurd hsp ih
      · simp

theorem splitOnChar_no_sep {sep : Char} {xs : List Char} (h : sep ∉ xs) :
    splitOnChar sep xs = [xs] := by
  induction xs with
  | nil => simp [splitOnChar]
  | cons x xs ih =>
    have hx : x ≠ sep := fun he => h (by simp [he])
    have hxs : sep ∉ xs := fun he => h (by simp [he])
    rw [splitOnChar]
    simp only [hx, if_false, ih hxs]

theorem splitOnChar_sep {sep : Char} {xs ys : List Char} (h : sep ∉ xs) :
    splitOnChar sep (xs ++ sep :: ys) = xs :: splitOnChar sep ys := by
  induction xs with
  | nil => simp [splitOnChar]
  | cons x xs ih =>
    have hx : x ≠ sep := fun he => h (by simp [he])
    have hxs : sep ∉ xs := fun he => h (by simp [he])
    rw [List.cons_append, splitOnChar]
    simp only [hx, if_false, ih hxs]

theorem dot_not_mem_renderPatchPart {c : Nat} {p : Option Nat} :
    '.' ∉ renderPatchPart c p := by
  intro h
  rcases p with _ | q
  · have h' : '.' ∈ renderNat c ++ ([] : List Char) := h
    rw [List.append_nil] at h'
    exact dot_not_mem_renderNat h'
  · have h' : '.' ∈ renderNat c ++ ('-' :: renderNat q) := h
    rw [List.mem_append, List.mem_cons] at h'
    rcases h' with h' | h' | h'
    · exact dot_not_mem_renderNat h'
    · exact absurd h' (by decide)
    · exact dot_not_mem_renderNat h'

theorem splitOnChar_renderVersionData (a b c : Nat) (p : Option Nat) :
    splitOnChar '.' (renderVersionData a b c p) =
      [renderNat a, renderNat b, renderPatchPart c p] := by
  rw [renderVersionData, splitOnChar_sep dot_not_mem_renderNat,
    splitOnChar_sep dot_not_mem_renderNat,
    splitOnChar_no_sep dot_not_mem_renderPatchPart]

theorem renderPatchPart_none_no_dash (c : Nat) :
    '-' ∉ renderPatchPart c none := by
  intro h
  have h' : '-' ∈ renderNat c ++ ([] : List Char) := h
  rw [List.append_nil] at h'
  exact dash_not_mem_renderNat h'

theorem renderPatchPart_some_has_dash (c q : Nat) :
    '-' ∈ renderPatchPart c (some q) := by
  show '-' ∈ renderNat c ++ ('-' :: renderNat q)
  simp

theorem splitOnChar_renderPatchPart_some (c q : Nat) :
    splitOnChar '-' (renderPatchPart c (some q)) = [renderNat c, renderNat q] := by
  show splitOnChar '-' (renderNat c ++ ('-' :: renderNat q)) = _
  rw [splitOnChar_sep dash_not_mem_renderNat,
    splitOnChar_no_sep dash_not_mem_renderNat]

theorem splitOnChar_renderVersion (a b c : Nat) (p : Option Nat) :
    splitOnChar '.' (renderVersion a b c p).data =
      [renderNat a, renderNat b, renderPatchPart c p] :=
  splitOnChar_renderVersionData a b c p

theorem jsParseInt_renderPatchPart_none (c : Nat) :
    jsParseInt (renderPatchPart c none) = .num c := by
  show jsParseInt (renderNat c ++ []) = _
  rw [List.append_nil]
  exact jsParseInt_renderNat c

theorem incrementVersion_render_preRelease (a b c : Nat) (p : Option Nat) :
    incrementVersion (renderVersion a b c p) "pre-release" =
      .ok (match p with
        | none => renderVersion a b (c + 1) (some 0)
        | some q => renderVersion a b c (some (q + 1))) := by
  rcases p with _ | q
  · simp only [incrementVersion, splitOnChar_renderVersion,
      renderPatchPart_none_no_dash c, jsParseInt_renderPatchPart_none,
      jsParseInt_renderNat]
    simp [incrementPreRelease, renderVersion, renderVersionData, renderPatchPart, JsNum.add1,
      JsNum.render, jsParseInt_renderNat]
  · simp only [incrementVersion, splitOnChar_renderVersion,
      renderPatchPart_some_has_dash c q, if_pos,
      splitOnChar_renderPatchPart_some, jsParseInt_renderNat]
    simp [incrementPreRelease, renderVersion, renderVersionData, renderPatchPart, JsNum.add1,
      JsNum.render, jsParseInt_renderNat]

theorem incrementVersion_render_patch (a b c : Nat) (p : Option Nat) :
    incrementVersion (renderVersion a b c p) "patch" =
      .ok (renderVersion a b (c + 1) none) := by
  rcases p with _ | q
  · simp only [incrementVersion, splitOnChar_renderVersion,
      renderPatchPart_none_no_dash c, jsParseInt_renderPatchPart_none,
      jsParseInt_renderNat]
    simp [incrementPatch, renderVersion, renderVersionData, renderPatchPart, JsNum.add1,
      JsNum.render, jsParseInt_renderNat]
  · simp only [incrementVersion, splitOnChar_renderVersion,
      renderPatchPart_some_has_dash c q, if_pos,
      splitOnChar_renderPatchPart_some, jsParseInt_renderNat]
    simp [incrementPatch, renderVersion, renderVersionData, renderPatchPart, JsNum.add1,
      JsNum.render, jsParseInt_renderNat]

theorem incrementVersion_render_minor (a b c : Nat) (p : Option Nat) :
    incrementVersion (renderVersion a b c p) "minor" =
      .ok (renderVersion a (b + 1) 0 none) := by
  rcases p with _ | q
  · simp only [incrementVersion, splitOnChar_renderVersion,
      renderPatchPart_none_no_dash c, jsParseInt_renderPatchPart_none,
      jsParseInt_renderNat]
    simp [incrementMinor, renderVersion, renderVersionData, renderPatchPart, JsNum.add1,
      JsNum.render, jsParseInt_renderNat]
  · simp only [incrementVersion, splitOnChar_renderVersion,
      renderPatchPart_some_has_dash c q, if_pos,
      splitOnChar_renderPatchPart_some, jsParseInt_renderNat]
    simp [incrementMinor, renderVersion, renderVersionData, renderPatchPart, JsNum.add1,
      JsNum.render, jsParseInt_renderNat]

theorem incrementVersion_render_major (a b c : Nat) (p : Option Nat) :
    incrementVersion (renderVersion a b c p) "major" =
      .ok (renderVersion (a + 1) 0 0 none) := by
  rcases p with _ | q
  · simp only [incrementVersion, splitOnChar_renderVersion,
      renderPatchPart_none_no_dash c, jsParseInt_renderPatchPart_none,
      jsParseInt_renderNat]
    simp [incrementMajor, renderVersion, renderVersionData, renderPatchPart, JsNum.add1,
      JsNum.render, jsParseInt_renderNat]
  · simp only [incrementVersion, splitOnChar_renderVersion,
      renderPatchPart_some_has_dash c q, if_pos,
      splitOnChar_renderPatchPart_some, jsParseInt_renderNat]
    simp [incrementMajor, renderVersion, renderVersionData, renderPatchPart, JsNum.add1,
      JsNum.render, jsParseInt_renderNat]

theorem incrementVersion_render_unknown (a b c : Nat) (p : Option Nat) (t : String)
    (h1 : t ≠ "pre-release") (h2 : t ≠ "patch") (h3 : t ≠ "minor") (h4 : t ≠ "major") :
    incrementVersion (renderVersion a b c p) t =
      .error ("Unknown increment type \"" ++ t ++ "\"") := by
  rcases p with _ | q
  · simp only [incrementVersion, splitOnChar_renderVersion,
      renderPatchPart_none_no_dash c, jsParseInt_renderPatchPart_none,
      jsParseInt_renderNat]
    simp
  · simp only [incrementVersion, splitOnChar_renderVersion,
      renderPatchPart_some_has_dash c q, if_pos,
      splitOnChar_renderPatchPart_some, jsParseInt_renderNat]
    simp [splitOnChar_renderPatchPart_some, jsParseInt_renderNat]

theorem renderVersion_patchPart_eq {a b c : Nat} {p : Option Nat}
    {a' b' c' : Nat} {p' : Option Nat}
    (h : renderVersion a b c p = renderVersion a' b' c' p') :
    renderPatchPart c p = renderPatchPart c' p' := by
  have hdata : renderVersionData a b c p = renderVersionData a' b' c' p' :=
    congrArg String.data h
  have hsplit := congrArg (splitOnChar '.') hdata
  rw [splitOnChar_renderVersionData, splitOnChar_renderVersionData] at hsplit
  simp only [List.cons.injEq] at hsplit
  exact hsplit.2.2.1

/-- The pre-release increment of a semver-subset version is never equal to
the version it was computed from. -/
theorem incrementPreRelease_result_ne (a b c : Nat) (p : Option Nat) :
    (match p with
      | none => renderVersion a b (c + 1) (some 0)
      | some q => renderVersion a b c (some (q + 1))) ≠ renderVersion a b c p := by
  rcases p with _ | q
  · intro h
    have hp := renderVersion_patchPart_eq h
    have hd : '-' ∈ renderPatchPart (c + 1) (some 0) := renderPatchPart_some_has_dash _ _
    rw [hp] at hd
    exact renderPatchPart_none_no_dash c hd
  · intro h
    have hp := renderVersion_patchPart_eq h
    have hsplit := congrArg (splitOnChar '-') hp
    rw [splitOnChar_renderPatchPart_some, splitOnChar_renderPatchPart_some] at hsplit
    simp only [List.cons.injEq] at hsplit
    have := renderNat_injective hsplit.2.1
    omega

theorem dedup_foldl_eq_spec {T E : Type} [DecidableEq E]
    (accessor : T → E) (isFalsy : E → Bool) :
    ∀ (l : List T) (acc : DedupAcc T E),
      (l.foldl (deduplicateConsecutive accessor isFalsy) acc).list =
        acc.list ++ dedupSpec accessor isFalsy acc.last l := by
  intro l
  induction l with
  | nil => intro acc; simp [dedupSpec]
  | cons x xs ih =>
    intro acc
    by_cases hf : isFalsy (accessor x)
    · rw [List.foldl_cons,
        show deduplicateConsecutive accessor isFalsy acc x = acc by
          simp [deduplicateConsecutive, hf],
        ih acc, dedupSpec]
      simp [hf]
    · by_cases hl : acc.last = some (accessor x)
      · rw [List.foldl_cons,
          show deduplicateConsecutive accessor isFalsy acc x = acc by
            simp [deduplicateConsecutive, hf, hl],
          ih acc, dedupSpec]
        simp [hf, hl]
      · rw [List.foldl_cons,
          show deduplicateConsecutive accessor isFalsy acc x =
              ⟨acc.list ++ [x], some (accessor x)⟩ by
            simp [deduplicateConsecutive, hf, hl],
          ih ⟨acc.list ++ [x], some (accessor x)⟩, dedupSpec]
        simp [hf, hl]

theorem deduplicateConsecutiveList_eq_spec {T E : Type} [DecidableEq E]
    (accessor : T → E) (isFalsy : E → Bool) (l : List T) :
    deduplicateConsecutiveList accessor isFalsy l = dedupSpec accessor isFalsy none l := by
  rw [deduplicateConsecutiveList, dedup_foldl_eq_spec]
  simp

theorem dedupSpec_props {T E : Type} [DecidableEq E]
    (accessor : T → E) (isFalsy : E → Bool) :
    ∀ (l : List T) (last : Option E),
      (∀ x ∈ dedupSpec accessor isFalsy last l, isFalsy (accessor x) = false) ∧
      List.Chain' (fun u v => accessor u ≠ accessor v) (dedupSpec accessor isFalsy last l) ∧
      (∀ h, (dedupSpec accessor isFalsy last l).head? = some h → last ≠ some (accessor h)) := by
  intro l
  induction l with
  | nil => intro last; simp [dedupSpec]
  | cons x xs ih =>
    intro last
    by_cases hf : isFalsy (accessor x)
    · rw [dedupSpec]
      simpa [hf] using ih last
    · by_cases hl : last = some (accessor x)
      · rw [dedupSpec]
        simpa [hf, hl] using ih last
      · rw [dedupSpec]
        simp only [hf, hl, if_false, Bool.false_eq_true]
        obtain ⟨ihf, ihc, ihh⟩ := ih (some (accessor x))
        refine ⟨?_, ?_, ?_⟩
        · intro y hy
          rcases List.mem_cons.mp hy with hy | hy
          · subst hy
            simpa using hf
          · exact ihf y hy
        · rw [List.chain'_cons']
          refine ⟨?_, ihc⟩
          intro y hy
          have := ihh y hy
          intro he
          exact this (by rw [he])
        · intro h hh
          simp only [List.head?_cons, Option.some.injEq] at hh
          subst hh
          exact hl

theorem dedupSpec_of_chain {T E : Type} [DecidableEq E]
    (accessor : T → E) (isFalsy : E → Bool) :
    ∀ (l : List T) (last : Option E),
      (∀ x ∈ l, isFalsy (accessor x) = false) →
      List.Chain' (fun u v => accessor u ≠ accessor v) l →
      (∀ h, l.head? = some h → last ≠ some (accessor h)) →
      dedupSpec accessor isFalsy last l = l := by
  intro l
  induction l with
  | nil => intro last _ _ _; simp [dedupSpec]
  | cons x xs ih =>
    intro last hfalsy hchain hhead
    have hf : isFalsy (accessor x) = false := hfalsy x (by simp)
    have hl : last ≠ some (accessor x) := hhead x (by simp)
    rw [dedupSpec]
    simp only [hf, hl, if_false, Bool.false_eq_true]
    congr 1
    apply ih (some (accessor x))
    · intro y hy; exact hfalsy y (by simp [hy])
    · exact (List.chain'_cons'.mp hchain).2
    · intro h hh
      have := (List.chain'_cons'.mp hchain).1 h hh
      intro he
      simp only [Option.some.injEq] at he
      exact this he

/-- Idempotence of the dedup fold, via its recursive restatement. -/
theorem deduplicateConsecutiveList_idem {T E : Type} [DecidableEq E]
    (accessor : T → E) (isFalsy : E → Bool) (l : List T) :
    deduplicateConsecutiveList accessor isFalsy
        (deduplicateConsecutiveList accessor isFalsy l) =
      deduplicateConsecutiveList accessor isFalsy l := by
  rw [deduplicateConsecutiveList_eq_spec, deduplicateConsecutiveList_eq_spec]
  obtain ⟨hfalsy, hchain, _⟩ := dedupSpec_props accessor isFalsy l none
  exact dedupSpec_of_chain accessor isFalsy _ none hfalsy hchain
    (fun h _ => by simp)

theorem filterCommitsAux_eq_claim (base : String) :
    ∀ (cs : List Commit) (kept out : List ExaminedCommit),
      filterCommitsAux base kept cs = .ok out →
      out = filterCommitsClaimAux base kept cs := by
  intro cs
  induction cs with
  | nil =>
    intro kept out h
    simp only [filterCommitsAux] at h
    cases h
    rfl
  | cons commit rest ih =>
    intro kept out h
    rw [filterCommitsAux] at h
    rw [filterCommitsClaimAux]
    by_cases h0 : commit.parents.length = 0
    · simp only [h0, if_true, if_pos] at h ⊢
      exact ih _ out h
    · simp only [h0, if_false] at h ⊢
      by_cases h1 : (commit.parents.length = 1 || base.data.isPrefixOf commit.sha.data) = true
      · rw [if_pos h1] at h ⊢
        exact ih _ out h
      · rw [if_neg h1] at h ⊢
        rcases hlast : kept.getLast? with _ | lastKept
        · rw [hlast] at h
          exact Except.noConfusion h
        · rw [hlast] at h
          have h' : (if lastKept.shaOf = commit.parents.head? then
                filterCommitsAux base (kept ++ [ExaminedCommit.real commit]) rest
              else filterCommitsAux base kept rest) = Except.ok out := h
          show out = (if lastKept.shaOf = commit.parents.head? then
              filterCommitsClaimAux base (kept ++ [ExaminedCommit.real commit]) rest
            else filterCommitsClaimAux base kept rest)
          by_cases heq : lastKept.shaOf = commit.parents.head?
          · rw [if_pos heq] at h' ⊢
            exact ih _ out h'
          · rw [if_neg heq] at h' ⊢
            exact ih _ out h'

/- ### Characterization of parsing and diff classification on rendered versions -/

theorem parseSemverVersion_render (a b c : Nat) (p : Option Nat) :
    parseSemverVersion (renderVersion a b c p) =
      .ok ⟨.num a, .num b, .num c, p.map renderNat⟩ := by
  rcases p with _ | q
  · simp only [parseSemverVersion, splitOnChar_renderVersion,
      renderPatchPart_none_no_dash c, jsParseInt_renderPatchPart_none,
      jsParseInt_renderNat]
    simp [jsParseInt_renderPatchPart_none, jsParseInt_renderNat]
  · simp only [parseSemverVersion, splitOnChar_renderVersion,
      renderPatchPart_some_has_dash c q, if_pos,
      splitOnChar_renderPatchPart_some, jsParseInt_renderNat]
    simp [splitOnChar_renderPatchPart_some, jsParseInt_renderNat]

theorem option_map_renderNat_injective {p q : Option Nat}
    (h : p.map renderNat = q.map renderNat) : p = q := by
  rcases p with _ | x <;> rcases q with _ | y <;> simp at h ⊢
  exact renderNat_injective h

theorem getSemverDiffType_render (a1 b1 c1 : Nat) (p1 : Option Nat)
    (a2 b2 c2 : Nat) (p2 : Option Nat) :
    getSemverDiffType (renderVersion a1 b1 c1 p1) (renderVersion a2 b2 c2 p2) =
      .ok (if a1 ≠ a2 then .major
        else if b1 ≠ b2 then .minor
        else if c1 ≠ c2 then .patch
        else if p1 ≠ p2 then .preRelease
        else .equal) := by
  simp only [getSemverDiffType, parseSemverVersion_render]
  by_cases ha : a1 = a2
  · subst ha
    by_cases hb : b1 = b2
    · subst hb
      by_cases hc : c1 = c2
      · subst hc
        by_cases hp : p1 = p2
        · subst hp
          simp [JsNum.jsNe]
        · have hmap : Option.map renderNat p1 ≠ Option.map renderNat p2 :=
            fun he => hp (option_map_renderNat_injective he)
          simp [JsNum.jsNe, hp, hmap]
      · simp [JsNum.jsNe, hc]
    · simp [JsNum.jsNe, hb]
  · simp [JsNum.jsNe, ha]

/- ### Claim theorems -/

/-- C2: `computeResponseFromChanges` satisfies the tagged-union invariant:
with `changed=false` the result has `newVersion = oldVersion` and empty
`changes`; with `changed=true` the `changes` list is the non-empty input
whose last entry provides `newVersion` and `commitResponsible`; and a last
change whose `newVersion` collapses back onto `oldVersion` (non-linear
history) forces `changed=false` with `changes=[]`, discarding the
intermediate entries. -/
theorem computeResponseFromChanges_invariants
    (changes : List VersionChange) (changedFiles : CategorizedChangedFiles)
    (oldVersion base head : String) (r : VersionMetadataResponse)
    (h : computeResponseFromChanges changes changedFiles oldVersion base head = .ok r) :
    r.oldVersion = oldVersion ∧
    (r.changed = false → r.newVersion = r.oldVersion ∧ r.changes = []) ∧
    (r.changed = true → r.changes = changes ∧ changes ≠ [] ∧
      (∀ lastChange, changes.getLast? = some lastChange →
        r.newVersion = lastChange.newVersion ∧
        r.commitResponsible = some lastChange.commit)) ∧
    (∀ lastChange, changes.getLast? = some lastChange →
      lastChange.newVersion = oldVersion →
      r.changed = false ∧ r.changes = []) := by
  rw [computeResponseFromChanges] at h
  split at h
  next hlast =>
    cases h
    refine ⟨rfl, fun _ => ⟨rfl, rfl⟩, fun hc => by simp at hc, ?_⟩
    intro lc hlc
    rw [hlast] at hlc
    exact Option.noConfusion hlc
  next lastChange hlast =>
    have hnil : changes ≠ [] := by
      intro he
      rw [he] at hlast
      simp at hlast
    dsimp only at h
    split at h
    next heq =>
      cases h
      refine ⟨rfl, fun _ => ⟨heq, rfl⟩, fun hc => by simp at hc, ?_⟩
      intro lc hlc _
      exact ⟨rfl, rfl⟩
    next heq =>
      split at h
      next => exact Except.noConfusion h
      next t hdiff =>
        cases h
        refine ⟨rfl, fun hc => by simp at hc, ?_, ?_⟩
        · intro _
          refine ⟨rfl, hnil, ?_⟩
          intro lc hlc
          rw [hlast] at hlc
          cases hlc
          exact ⟨rfl, rfl⟩
        · intro lc hlc hlc2
          rw [hlast] at hlc
          cases hlc
          exact absurd hlc2 heq

/-- C2 witness: a two-step history that collapses back onto `1.0.0` is
forced to the `changed=false` variant with empty `changes`. -/
theorem computeResponseFromChanges_invariants_witness :
    computeResponseFromChanges
        [⟨"1.0.0", "1.0.1", .patch, "c1"⟩, ⟨"1.0.1", "1.0.0", .patch, "c2"⟩]
        emptyChangedFiles "1.0.0" "b" "h" =
      .ok { changed := false, oldVersion := "1.0.0", newVersion := "1.0.0",
            commitBase := "b", commitHead := "h", changedFiles := emptyChangedFiles,
            changes := [] } ∧
    ({ changed := false, oldVersion := "1.0.0", newVersion := "1.0.0",
       commitBase := "b", commitHead := "h", changedFiles := emptyChangedFiles,
       changes := [] : VersionMetadataResponse }.changed = false ∧
     { changed := false, oldVersion := "1.0.0", newVersion := "1.0.0",
       commitBase := "b", commitHead := "h", changedFiles := emptyChangedFiles,
       changes := [] : VersionMetadataResponse }.changes = []) :=
  ⟨by rfl,
    (computeResponseFromChanges_invariants
        [⟨"1.0.0", "1.0.1", .patch, "c1"⟩, ⟨"1.0.1", "1.0.0", .patch, "c2"⟩]
        emptyChangedFiles "1.0.0" "b" "h" _ (by rfl)).2.2.2
      ⟨"1.0.1", "1.0.0", .patch, "c2"⟩ (by rfl) (by rfl)⟩

/-- C5: on every semver-subset version the increment algorithm produces:
`pre-release` → `major.minor.(patch+1)-0` without a pre-release suffix and
`major.minor.patch-(preRelease+1)` with one; `patch` →
`major.minor.(patch+1)`; `minor` → `major.(minor+1).0`; `major` →
`(major+1).0.0` (suffix dropped in each of the last three); and every
unrecognized increment type is a hard error.  Versions are represented by
their canonical decimal rendering. -/
theorem incrementVersion_spec (a b c : Nat) (p : Option Nat) (t : String) :
    incrementVersion (renderVersion a b c p) "pre-release" =
        .ok (match p with
          | none => renderVersion a b (c + 1) (some 0)
          | some q => renderVersion a b c (some (q + 1))) ∧
    incrementVersion (renderVersion a b c p) "patch" = .ok (renderVersion a b (c + 1) none) ∧
    incrementVersion (renderVersion a b c p) "minor" = .ok (renderVersion a (b + 1) 0 none) ∧
    incrementVersion (renderVersion a b c p) "major" = .ok (renderVersion (a + 1) 0 0 none) ∧
    (t ∉ (["pre-release", "patch", "minor", "major"] : List String) →
      incrementVersion (renderVersion a b c p) t =
        .error ("Unknown increment type \"" ++ t ++ "\"")) := by
  refine ⟨incrementVersion_render_preRelease a b c p,
    incrementVersion_render_patch a b c p,
    incrementVersion_render_minor a b c p,
    incrementVersion_render_major a b c p, ?_⟩
  intro ht
  simp only [List.mem_cons, List.mem_singleton, not_or] at ht
  exact incrementVersion_render_unknown a b c p t ht.1 ht.2.1 ht.2.2.1 ht.2.2.2.1

/-- C5 witness: the spec at `1.2.3` and the unrecognized type `bogus`. -/
theorem incrementVersion_spec_witness :
    incrementVersion (renderVersion 1 2 3 none) "pre-release" =
        .ok (renderVersion 1 2 4 (some 0)) ∧
    ("bogus" : String) ∉ (["pre-release", "patch", "minor", "major"] : List String) ∧
    incrementVersion (renderVersion 1 2 3 none) "bogus" =
      .error ("Unknown increment type \"" ++ "bogus" ++ "\"") :=
  ⟨(incrementVersion_spec 1 2 3 none "bogus").1, by decide,
    (incrementVersion_spec 1 2 3 none "bogus").2.2.2.2 (by decide)⟩

/-- C6 counterexample: the spec's first test equality is wrong:
`increment('1.2.3', 'pre-release')` evaluates to `'1.2.4-0'` (patch is
incremented when adding the first pre-release suffix), not `'1.2.3-0'`. -/
theorem incrementVersion_example_counterexample :
    incrementVersion "1.2.3" "pre-release" = .ok "1.2.4-0" ∧
    Except.ok "1.2.4-0" ≠ (.ok "1.2.3-0" : Except String String) := by
  constructor
  · rfl
  · intro h
    exact absurd (Except.ok.inj h) (by decide)

/-- C6 (amended): the increment test equalities as the code computes them:
`increment('1.2.3','pre-release') = '1.2.4-0'`;
`increment('1.2.3-0','pre-release') = '1.2.3-1'`;
`increment('1.2.3','patch') = '1.2.4'`;
`increment('1.2.3','minor') = '1.3.0'`;
`increment('1.2.3','major') = '2.0.0'`. -/
theorem incrementVersion_examples :
    incrementVersion "1.2.3" "pre-release" = .ok "1.2.4-0" ∧
    incrementVersion "1.2.3-0" "pre-release" = .ok "1.2.3-1" ∧
    incrementVersion "1.2.3" "patch" = .ok "1.2.4" ∧
    incrementVersion "1.2.3" "minor" = .ok "1.3.0" ∧
    incrementVersion "1.2.3" "major" = .ok "2.0.0" :=
  ⟨rfl, rfl, rfl, rfl, rfl⟩

/-- C7: the diff classifier compares parsed components in priority order
`major > minor > patch > preRelease` and returns the label of the first
differing component (`equal` when none differ), so a pair differing in
major is always `major`, and dropping only a pre-release suffix is
`pre-release`, not `patch`; including the spec's concrete cases. -/
theorem getSemverDiffType_priority (a1 b1 c1 : Nat) (p1 : Option Nat)
    (a2 b2 c2 : Nat) (p2 : Option Nat) :
    (a1 ≠ a2 →
      getSemverDiffType (renderVersion a1 b1 c1 p1) (renderVersion a2 b2 c2 p2) =
        .ok .major) ∧
    (a1 = a2 → b1 ≠ b2 →
      getSemverDiffType (renderVersion a1 b1 c1 p1) (renderVersion a2 b2 c2 p2) =
        .ok .minor) ∧
    (a1 = a2 → b1 = b2 → c1 ≠ c2 →
      getSemverDiffType (renderVersion a1 b1 c1 p1) (renderVersion a2 b2 c2 p2) =
        .ok .patch) ∧
    (a1 = a2 → b1 = b2 → c1 = c2 → p1 ≠ p2 →
      getSemverDiffType (renderVersion a1 b1 c1 p1) (renderVersion a2 b2 c2 p2) =
        .ok .preRelease) ∧
    (a1 = a2 → b1 = b2 → c1 = c2 → p1 = p2 →
      getSemverDiffType (renderVersion a1 b1 c1 p1) (renderVersion a2 b2 c2 p2) =
        .ok .equal) ∧
    getSemverDiffType "1.0.0" "1.0.1" = .ok .patch ∧
    getSemverDiffType "1.0.0" "2.0.4" = .ok .major ∧
    getSemverDiffType "1.0.0" "1.0.0" = .ok .equal ∧
    getSemverDiffType "1.0.0" "1.0.0-3" = .ok .preRelease ∧
    getSemverDiffType "1.0.0-5" "1.0.0" = .ok .preRelease := by
  refine ⟨?_, ?_, ?_, ?_, ?_, by rfl, by rfl, by rfl, by rfl, by rfl⟩
  · intro ha
    rw [getSemverDiffType_render]
    simp [ha]
  · intro ha hb
    subst ha
    rw [getSemverDiffType_render]
    simp [hb]
  · intro ha hb hc
    subst ha; subst hb
    rw [getSemverDiffType_render]
    simp [hc]
  · intro ha hb hc hp
    subst ha; subst hb; subst hc
    rw [getSemverDiffType_render]
    simp [hp]
  · intro ha hb hc hp
    subst ha; subst hb; subst hc; subst hp
    rw [getSemverDiffType_render]
    simp

/-- C7 witness: a pair differing in major (and in everything else)
classifies as `major`. -/
theorem getSemverDiffType_priority_witness :
    getSemverDiffType (renderVersion 1 2 3 none) (renderVersion 2 0 4 (some 1)) =
      .ok .major :=
  (getSemverDiffType_priority 1 2 3 none 2 0 4 (some 1)).1 (by decide)

/-- C1 counterexample: with non-linear history detected
(`changed=true`, `newVersion = latestRegistryVersion = '1.0.1'`) and no
changed file matching any glob, the decision engine publishes the
incremented version `1.0.2-0`; the claim's decision table demands
`publish=false` with no version in exactly this case. -/
theorem publishRun_nonLinear_noRelevant_counterexample :
    publishRun (fun _ _ => false) [] mdChangedExample "1.0.1" "pre-release" =
        .ok { publish := true, version := some "1.0.2-0" } ∧
    Except.ok { publish := true, version := some "1.0.2-0" } ≠
      (.ok { publish := false, version := none } : Except String PublishResult) := by
  constructor
  · rfl
  · intro h
    exact absurd (Except.ok.inj h) (by decide)

/-- C1 (amended): the decision table with first-matching-row-wins
semantics as the code implements it: row 1 — `changed` and not non-linear:
publish `result.newVersion`; row 2 — (`changed == false` OR non-linear)
AND (at least one relevant file OR non-linear): publish
`increment(latestRegistryVersion, incrementType)`; otherwise (changed
false, not non-linear, no relevant file): no publish, no version. -/
theorem publishRun_decision_table
    (matchesGlob : String → String → Bool) (relevantFilesGlobs : List String)
    (md : VersionMetadataResponse) (latest incrementType : String) :
    (md.changed = true → md.newVersion ≠ latest →
      publishRun matchesGlob relevantFilesGlobs md latest incrementType =
        .ok { publish := true, version := some md.newVersion }) ∧
    ((md.changed = false ∨ md.newVersion = latest) →
      (md.changedFiles.all.filter
          (fun file => relevantFilesGlobs.any (fun glob => matchesGlob file glob)) ≠ [] ∨
        md.newVersion = latest) →
      publishRun matchesGlob relevantFilesGlobs md latest incrementType =
        (incrementVersion latest incrementType).map
          (fun v => { publish := true, version := some v })) ∧
    (md.changed = false → md.newVersion ≠ latest →
      md.changedFiles.all.filter
          (fun file => relevantFilesGlobs.any (fun glob => matchesGlob file glob)) = [] →
      publishRun matchesGlob relevantFilesGlobs md latest incrementType =
        .ok { publish := false, version := none }) := by
  refine ⟨?_, ?_, ?_⟩
  · intro hc hne
    have hbeq : (md.newVersion == latest) = false := by
      simp [hne]
    simp [publishRun, hc, hbeq]
  · intro hrow1 hrow2
    have hcond : (md.changed && !(md.newVersion == latest)) = false := by
      rcases hrow1 with hc | he
      · simp [hc]
      · simp [he]
    have hcond2 : (decide (0 < (md.changedFiles.all.filter
        (fun file => relevantFilesGlobs.any (fun glob => matchesGlob file glob))).length) ||
        (md.newVersion == latest)) = true := by
      rcases hrow2 with hne | he
      · have : 0 < (md.changedFiles.all.filter
            (fun file => relevantFilesGlobs.any (fun glob => matchesGlob file glob))).length :=
          List.length_pos.mpr hne
        simp [this]
      · simp [he]
    rw [publishRun]
    simp only [hcond, hcond2, if_false, if_true, Bool.false_eq_true, if_neg, if_pos]
    rcases hinc : incrementVersion latest incrementType with e | v
    · simp [hinc, Except.map]
    · simp [hinc, Except.map]
  · intro hc hne hfil
    have hbeq : (md.newVersion == latest) = false := by
      simp [hne]
    simp [publishRun, hc, hbeq, hfil]

/-- C1 witness: an explicitly detected bump with no non-linear history
publishes `result.newVersion` (row 1 of the table). -/
theorem publishRun_decision_table_witness :
    publishRun (fun _ _ => false) [] mdChangedExample "2.0.0" "pre-release" =
      .ok { publish := true, version := some "1.0.1" } :=
  (publishRun_decision_table (fun _ _ => false) [] mdChangedExample "2.0.0" "pre-release").1
    (by rfl) (by decide)

/-- C3: on a reconstructed `changed=true` result whose `newVersion` equals
the latest registry version, the engine publishes
`increment(latestRegistryVersion, 'pre-release')` and that version is
never equal to `latestRegistryVersion` itself. -/
theorem publishRun_nonLinear_increments
    (matchesGlob : String → String → Bool) (relevantFilesGlobs : List String)
    (md : VersionMetadataResponse) (a b c : Nat) (p : Option Nat)
    (_hchanged : md.changed = true)
    (hnew : md.newVersion = renderVersion a b c p) :
    publishRun matchesGlob relevantFilesGlobs md (renderVersion a b c p) "pre-release" =
        .ok { publish := true, version := some (preReleaseBump a b c p) } ∧
    incrementVersion (renderVersion a b c p) "pre-release" =
      .ok (preReleaseBump a b c p) ∧
    preReleaseBump a b c p ≠ renderVersion a b c p := by
  refine ⟨?_, ?_, ?_⟩
  · have hbeq : (md.newVersion == renderVersion a b c p) = true := by
      simp [hnew]
    rw [publishRun]
    simp only [hbeq, Bool.not_true, Bool.and_false, Bool.or_true, if_true, if_false,
      Bool.false_eq_true, incrementVersion_render_preRelease]
    rfl
  · exact incrementVersion_render_preRelease a b c p
  · exact incrementPreRelease_result_ne a b c p

/-- C3 witness: `newVersion = latestRegistryVersion = '1.0.1'` publishes
`1.0.2-0`, not `1.0.1`. -/
theorem publishRun_nonLinear_increments_witness :
    publishRun (fun _ _ => false) [] mdChangedExample (renderVersion 1 0 1 none)
        "pre-release" =
      .ok { publish := true, version := some (renderVersion 1 0 2 (some 0)) } ∧
    renderVersion 1 0 2 (some 0) ≠ renderVersion 1 0 1 none :=
  ⟨(publishRun_nonLinear_increments (fun _ _ => false) [] mdChangedExample 1 0 1 none
      (by rfl) (by decide)).1,
    (publishRun_nonLinear_increments (fun _ _ => false) [] mdChangedExample 1 0 1 none
      (by rfl) (by decide)).2.2⟩

/-- C4: the commit-filtering fold keeps exactly the commits the claim
describes (proved as a refinement against the claim-side function, on every
run that completes), and on the spec's synthetic graph it retains a merge
commit whose first parent is the preceding kept commit's SHA, drops an
ordinary merge commit, and synthesizes the sentinel parent for a root
commit. -/
theorem filterCommits_keep_rules :
    (∀ (base : String) (cs : List Commit) (kept : List ExaminedCommit),
      filterCommits base cs = .ok kept → kept = filterCommitsClaim base cs) ∧
    filterCommits "bbb" [⟨"bbb0", ["p", "q"], "base commit"⟩, ⟨"c1", ["bbb0"], "work"⟩,
        ⟨"m1", ["c1", "f1"], "merge main into feature"⟩,
        ⟨"m2", ["c1", "f2"], "ordinary merge"⟩] =
      .ok [.real ⟨"bbb0", ["p", "q"], "base commit"⟩, .real ⟨"c1", ["bbb0"], "work"⟩,
        .real ⟨"m1", ["c1", "f1"], "merge main into feature"⟩] ∧
    filterCommits "x" [⟨"root", [], "initial"⟩] =
      .ok [.artificialParent "root", .real ⟨"root", [], "initial"⟩] := by
  refine ⟨?_, by rfl, by rfl⟩
  intro base cs kept h
  exact filterCommitsAux_eq_claim base cs [] kept h

/-- C4 witness: the refinement applied to the synthetic graph. -/
theorem filterCommits_keep_rules_witness :
    [ExaminedCommit.real ⟨"bbb0", ["p", "q"], "base commit"⟩,
        .real ⟨"c1", ["bbb0"], "work"⟩,
        .real ⟨"m1", ["c1", "f1"], "merge main into feature"⟩] =
      filterCommitsClaim "bbb" [⟨"bbb0", ["p", "q"], "base commit"⟩,
        ⟨"c1", ["bbb0"], "work"⟩, ⟨"m1", ["c1", "f1"], "merge main into feature"⟩,
        ⟨"m2", ["c1", "f2"], "ordinary merge"⟩] :=
  filterCommits_keep_rules.1 "bbb"
    [⟨"bbb0", ["p", "q"], "base commit"⟩, ⟨"c1", ["bbb0"], "work"⟩,
      ⟨"m1", ["c1", "f1"], "merge main into feature"⟩, ⟨"m2", ["c1", "f2"], "ordinary merge"⟩]
    [.real ⟨"bbb0", ["p", "q"], "base commit"⟩, .real ⟨"c1", ["bbb0"], "work"⟩,
      .real ⟨"m1", ["c1", "f1"], "merge main into feature"⟩] (by rfl)

/-- C8: a fetch failure on a kept non-sentinel commit does not abort the
run: the synthetic `0.0.0` payload is substituted, recorded as a fallback,
and parsed as plain JSON regardless of any configured regex/command
extraction override, contributing version `0.0.0`; whereas an extraction
failure on successfully fetched content aborts with the error. -/
theorem fetchFallback_spec :
    (∀ (fetch : String → Except String FileContents)
        (extractionMethod : ExtractionMethod) (c : Commit) (e : String),
      fetch c.sha = .error e →
        parseIteration extractionMethod (fetchPackageJson fetch (.real c)) =
          .ok { version := "0.0.0", sha := some c.sha, isFallback := true }) ∧
    (∀ (fetch : String → Except String FileContents)
        (extractionMethod : ExtractionMethod) (c : Commit)
        (content : FileContents) (e : String),
      fetch c.sha = .ok content →
      parseVersionFromFileContents content extractionMethod = .error e →
        parseIteration extractionMethod (fetchPackageJson fetch (.real c)) = .error e) := by
  constructor
  · intro fetch extractionMethod c e hf
    simp [fetchPackageJson, ExaminedCommit.shaOf, hf, parseIteration,
      parseVersionFromFileContents, parseVersionFromFileContentsJSON, dummyContent]
  · intro fetch extractionMethod c content e hf hp
    simp [fetchPackageJson, ExaminedCommit.shaOf, hf, parseIteration, hp]

/-- C8 witness: a failing fetch under an always-failing regex override
still yields the `0.0.0` fallback entry. -/
theorem fetchFallback_spec_witness :
    parseIteration (.regex (fun _ => .error "regex failed"))
        (fetchPackageJson (fun _ => .error "HTTP 404") (.real ⟨"abc", ["p"], "m"⟩)) =
      .ok { version := "0.0.0", sha := some "abc", isFallback := true } :=
  fetchFallback_spec.1 (fun _ => .error "HTTP 404")
    (.regex (fun _ => .error "regex failed")) ⟨"abc", ["p"], "m"⟩ "HTTP 404" rfl

/-- C9: consecutive deduplication is idempotent for every input list,
accessor and falsiness predicate; the spec's numeric example yields
`[1,2,3,4,5,1,2]`, and a return to a previously seen value after an
intervening different value is preserved (`[A,A,B,B,A]` gives
`[A,B,A]`). -/
theorem deduplicateConsecutive_idem :
    (∀ {T E : Type} [DecidableEq E] (accessor : T → E) (isFalsy : E → Bool) (l : List T),
      deduplicateConsecutiveList accessor isFalsy
          (deduplicateConsecutiveList accessor isFalsy l) =
        deduplicateConsecutiveList accessor isFalsy l) ∧
    deduplicateConsecutiveList (fun x : Nat => x) (fun x => x == 0)
        [1, 2, 2, 3, 3, 3, 4, 4, 4, 4, 5, 5, 5, 5, 5, 1, 2] = [1, 2, 3, 4, 5, 1, 2] ∧
    deduplicateConsecutiveList (fun s : String => s) (fun s => s == "")
        ["A", "A", "B", "B", "A"] = ["A", "B", "A"] := by
  refine ⟨?_, by rfl, by rfl⟩
  intro T E _ accessor isFalsy l
  exact deduplicateConsecutiveList_idem accessor isFalsy l

/-- C10: every element whose accessor value is falsy is silently discarded
(none appears in the output), and a discarded element does not update the
last-seen value, so `['1.0.0', '', '1.0.0']` collapses to `['1.0.0']`. -/
theorem deduplicateConsecutive_falsy :
    (∀ {T E : Type} [DecidableEq E] (accessor : T → E) (isFalsy : E → Bool)
        (l : List T) (x : T),
      x ∈ deduplicateConsecutiveList accessor isFalsy l →
        isFalsy (accessor x) = false) ∧
    deduplicateConsecutiveList (fun s : String => s) (fun s => s == "")
        ["1.0.0", "", "1.0.0"] = ["1.0.0"] := by
  refine ⟨?_, by rfl⟩
  intro T E _ accessor isFalsy l x hx
  rw [deduplicateConsecutiveList_eq_spec] at hx
  exact (dedupSpec_props accessor isFalsy l none).1 x hx

/-- C10 witness: the falsiness guarantee applied to the kept element of
the concrete run. -/
theorem deduplicateConsecutive_falsy_witness :
    (("1.0.0" : String) == "") = false :=
  deduplicateConsecutive_falsy.1 (fun s : String => s) (fun s => s == "")
    ["1.0.0", "", "1.0.0"] "1.0.0" (by decide)

end UIActions
